import Mathlib

/-!
Shallow embedding of the go-bench goroutine benchmark tool (src/main.go) and
proofs about its sweep generator, trial-runner accounting, and results reporter.

Modelling conventions:
* Go `int` values that are always non-negative in this program (core counts,
  goroutine counts, operation counters of type `uint64`) are embedded as `Nat`;
  the flag-supplied duration, which may be negative, is embedded as `Int`.
* Go `float64` fields (`OpsPerSecond`, the CPU ratio, the speedup) are embedded
  as `ℚ`.  Every concrete value appearing in the claims (100.0, 450.0, 300.0,
  ratios of small integers) is exactly representable in `float64`, and the
  comparisons and divisions performed on them by the program are exact, so the
  rational model agrees with the float computation on all inputs considered.
* The concurrent trial (`benchmarkCPU` / `benchmarkMemory`) is embedded as a
  transition system over interleaved worker events: each event is either one
  iteration of the workload kernel by one worker (which bumps that worker's
  local counter and, at the batch threshold, atomically flushes a full batch
  into the shared counter) or that worker's observation of the stop signal
  (which atomically flushes its residual local count).  The shared counter is
  only ever changed by these atomic additions, so an arbitrary interleaving of
  worker events is a faithful model of the Go execution.
* The floating-point value computed by the CPU kernel and the buffers touched
  by the memory kernel are discarded by the program and never influence the
  counters, so they are not modelled.
-/

/-! ## Sweep generator -/

/-- Embeds `getTestCases` (src/main.go:254-274).  Starting from `[1]`, the code
appends `cpuCount / 2` when `cpuCount > 1`, then `cpuCount` unconditionally,
then `cpuCount + cpuCount/2` when that exceeds `cpuCount`, and finally
`cpuCount * 2` when `maxRoutines >= cpuCount*2`.  Go integer division on
non-negative operands coincides with `Nat` division. -/
def getTestCases (cpuCount maxRoutines : Nat) : List Nat :=
  (([1] ++ (if 1 < cpuCount then [cpuCount / 2] else []) ++ [cpuCount])
    ++ (if cpuCount < cpuCount + cpuCount / 2 then [cpuCount + cpuCount / 2] else []))
    ++ (if cpuCount * 2 ≤ maxRoutines then [cpuCount * 2] else [])

/-! ## Results data model and reporter -/

/-- Embeds the `BenchmarkResult` struct (src/main.go:14-19). -/
structure BenchmarkResult where
  Goroutines : Nat
  OpsPerSecond : ℚ
  MemoryAllocs : Nat
  TotalOps : Nat
deriving DecidableEq

/-- The Go zero value of `BenchmarkResult`, which is what the local variables
`bestResult` and `singleGoroutineResult` of `printResults` hold before any
assignment (src/main.go:286-287). -/
def zeroResult : BenchmarkResult :=
  { Goroutines := 0, OpsPerSecond := 0, MemoryAllocs := 0, TotalOps := 0 }

/-- Embeds the best-result accumulation loop of `printResults`
(src/main.go:290-302): the pair carries `(bestResult, bestPerformance)` and a
trial replaces the best exactly when its `OpsPerSecond` strictly exceeds the
running `bestPerformance`. -/
def selectBestAux (acc : BenchmarkResult × ℚ) (rs : List BenchmarkResult) :
    BenchmarkResult × ℚ :=
  rs.foldl (fun a r => if a.2 < r.OpsPerSecond then (r, r.OpsPerSecond) else a) acc

/-- The best-result selection of `printResults`, started from the Go zero value
and `bestPerformance = 0.0` (src/main.go:286-288). -/
def selectBest (rs : List BenchmarkResult) : BenchmarkResult × ℚ :=
  selectBestAux (zeroResult, 0) rs

/-- Embeds the `singleGoroutineResult` accumulation of `printResults`
(src/main.go:294-296): each trial with `Goroutines == 1` overwrites the
variable, so the last such trial wins. -/
def selectSingleAux (acc : BenchmarkResult) (rs : List BenchmarkResult) :
    BenchmarkResult :=
  rs.foldl (fun a r => if r.Goroutines = 1 then r else a) acc

/-- The `singleGoroutineResult` after the loop of `printResults`, started from
the Go zero value. -/
def selectSingle (rs : List BenchmarkResult) : BenchmarkResult :=
  selectSingleAux zeroResult rs

/-- The data computed by the summary part of `printResults`
(src/main.go:304-314): best goroutine count, best throughput, the
goroutines-per-core ratio, and the speedup versus the single-goroutine trial,
which is printed only when a trial with `Goroutines == 1` was seen. -/
structure ReportSummary where
  bestGoroutines : Nat
  bestOps : ℚ
  workersPerCore : ℚ
  speedup : Option ℚ
deriving DecidableEq

/-- Embeds the summary computation of `printResults` (src/main.go:286-314).
The guard `singleGoroutineResult.Goroutines == 1` holds exactly when some trial
had `Goroutines == 1`, since the zero value has `Goroutines == 0`. -/
def printResultsModel (rs : List BenchmarkResult) (cpuCount : Nat) : ReportSummary :=
  let best := (selectBest rs).1
  let single := selectSingle rs
  { bestGoroutines := best.Goroutines
    bestOps := best.OpsPerSecond
    workersPerCore := (best.Goroutines : ℚ) / (cpuCount : ℚ)
    speedup :=
      if single.Goroutines = 1 then some (best.OpsPerSecond / single.OpsPerSecond)
      else none }

/-- The ResultSet of the best-configuration example in the spec:
`[(1, 100.0), (4, 450.0), (8, 300.0)]`. -/
def exampleResults : List BenchmarkResult :=
  [{ Goroutines := 1, OpsPerSecond := 100, MemoryAllocs := 0, TotalOps := 0 },
   { Goroutines := 4, OpsPerSecond := 450, MemoryAllocs := 0, TotalOps := 0 },
   { Goroutines := 8, OpsPerSecond := 300, MemoryAllocs := 0, TotalOps := 0 }]

/-- The ResultSet of the missing-baseline example in the spec:
`[(4, 450.0), (8, 300.0)]` (no trial with worker count 1). -/
def exampleNoBaseline : List BenchmarkResult :=
  [{ Goroutines := 4, OpsPerSecond := 450, MemoryAllocs := 0, TotalOps := 0 },
   { Goroutines := 8, OpsPerSecond := 300, MemoryAllocs := 0, TotalOps := 0 }]

/-! ## Main dispatch -/

/-- What `main` (src/main.go:50-95) does with the parsed flags, as far as
error surfacing and trial selection are concerned. -/
structure MainOutcome where
  configErrorSurfaced : Bool
  cpuTrialsRun : Bool
  memoryTrialsRun : Bool
deriving DecidableEq

/-- Embeds the control flow of `main` (src/main.go:50-95).  The parsed flags
are used without any validation: no error path exists, the duration (which may
be zero or negative) is handed to the benchmarks unchecked, CPU trials run iff
the test type is "cpu" or "both", and memory trials run iff it is "memory" or
"both". -/
def mainDispatch (durationSeconds : Int) (testType : String) : MainOutcome :=
  { configErrorSurfaced := false
    cpuTrialsRun := testType == "cpu" || testType == "both"
    memoryTrialsRun := testType == "memory" || testType == "both" }

/-! ## Trial runner -/

/-- The buffer sizes of the memory kernel (src/main.go:209); each size
processed counts as one allocation/operation. -/
def sizes : List Nat := [64, 256, 1024, 4096]

/-- The two counting parameters of a workload's worker loop: the batch
threshold at which a full batch is flushed into the shared counter, and the
number of operations one iteration of the loop contributes (1 kernel call for
CPU, one per buffer size for memory). -/
structure Workload where
  threshold : Nat
  opsPerIter : Nat

/-- The CPU workload: each loop iteration is one kernel call, batches of
10,000 are flushed (src/main.go:126-144). -/
def cpuWorkload : Workload := { threshold := 10000, opsPerIter := 1 }

/-- The memory workload: each loop iteration performs one allocation per
buffer size, batches of 1,000 are flushed (src/main.go:203-223). -/
def memWorkload : Workload := { threshold := 1000, opsPerIter := sizes.length }

/-- One iteration of the worker loop body acting on the worker-local counter
(src/main.go:131-143 and 208-222): the local counter grows by `opsPerIter`,
and when it reaches a multiple of the threshold a full batch is atomically
added to the shared counter and subtracted from the local counter.  Returns
the new local counter and the amount flushed to the shared counter. -/
def workStep (wl : Workload) (l : Nat) : Nat × Nat :=
  let l2 := l + wl.opsPerIter
  if l2 % wl.threshold = 0 then (l2 - wl.threshold, wl.threshold) else (l2, 0)

/-- One worker action in the interleaved trial semantics: either one iteration
of the loop body, or the observation of the closed `stop` channel, upon which
the worker flushes its residual local count and terminates
(src/main.go:128-129 and 205-206). -/
inductive WAction where
  | work
  | halt
deriving DecidableEq

/-- A scheduled event of a trial: which worker acts, and what it does. -/
abbrev Event := Nat × WAction

/-- The shared state of a running trial: the shared atomic counter
(`totalOps` / `totalAllocs`) and the worker-local counters. -/
structure TrialState where
  counter : Nat
  locals : Nat → Nat

/-- The state before any worker has executed: counter 0, all locals 0. -/
def initTrial : TrialState := { counter := 0, locals := fun _ => 0 }

/-- Applying one scheduled event to the trial state.  A `work` event runs one
loop iteration of the given worker; a `halt` event flushes that worker's
residual local count into the shared counter (src/main.go:128-129, 140-143). -/
def applyEvent (wl : Workload) (s : TrialState) (e : Event) : TrialState :=
  match e.2 with
  | WAction.work =>
      { counter := s.counter + (workStep wl (s.locals e.1)).2
        locals := Function.update s.locals e.1 (workStep wl (s.locals e.1)).1 }
  | WAction.halt =>
      { counter := s.counter + s.locals e.1
        locals := Function.update s.locals e.1 0 }

/-- Running a schedule of events from a given state. -/
def runFrom (wl : Workload) (s : TrialState) (es : List Event) : TrialState :=
  es.foldl (applyEvent wl) s

/-- Running a whole trial: an interleaved schedule of worker events executed
from the initial state. -/
def runTrial (wl : Workload) (es : List Event) : TrialState :=
  runFrom wl initTrial es

/-- The worker-id projection of a schedule: the sequence of actions worker `i`
performs, in order. -/
def proj (es : List Event) (i : Nat) : List WAction :=
  (es.filter (fun e => e.1 == i)).map (fun e => e.2)

/-- The local counter of a single worker after sequentially executing a list
of its own actions. -/
def runLocal (wl : Workload) (l : Nat) : List WAction → Nat
  | [] => l
  | WAction.work :: rest => runLocal wl (workStep wl l).1 rest
  | WAction.halt :: rest => runLocal wl 0 rest

/-- The total amount a single worker adds to the shared counter while
sequentially executing a list of its own actions, starting from local
counter `l`. -/
def runFlushed (wl : Workload) (l : Nat) : List WAction → Nat
  | [] => 0
  | WAction.work :: rest => (workStep wl l).2 + runFlushed wl (workStep wl l).1 rest
  | WAction.halt :: rest => l + runFlushed wl 0 rest

/-- The value of the shared counter after the first `t` events of a schedule:
what the progress ticker (or any observer) would read at that point of the
interleaving. -/
def counterAt (wl : Workload) (es : List Event) (t : Nat) : Nat :=
  (runTrial wl (es.take t)).counter

/-- Embeds the tail of `benchmarkCPU` (src/main.go:160-171): after the stop
broadcast and `wg.Wait()`, the final counter is read and the result is built
with `opsPerSecond = totalOps / duration.Seconds()`. -/
def benchmarkCPUResult (g : Nat) (es : List Event) (durationSec : ℚ) : BenchmarkResult :=
  let finalOps := (runTrial cpuWorkload es).counter
  { Goroutines := g
    OpsPerSecond := (finalOps : ℚ) / durationSec
    MemoryAllocs := 0
    TotalOps := finalOps }

/-- Embeds the tail of `benchmarkMemory` (src/main.go:239-251): the final
counter is exposed both as `MemoryAllocs` and as `TotalOps`, with
`opsPerSecond = totalAllocs / duration.Seconds()`. -/
def benchmarkMemoryResult (g : Nat) (es : List Event) (durationSec : ℚ) : BenchmarkResult :=
  let finalAllocs := (runTrial memWorkload es).counter
  { Goroutines := g
    OpsPerSecond := (finalAllocs : ℚ) / durationSec
    MemoryAllocs := finalAllocs
    TotalOps := finalAllocs }

/-! ## Lemmas about the sweep generator -/

lemma getTestCases_sorted (c m : Nat) (hc : 1 ≤ c) :
    List.Sorted (· ≤ ·) (getTestCases c m) := by
  unfold getTestCases
  split_ifs with h1 h2 h3 <;>
    simp [List.sorted_cons] <;> omega

lemma getTestCases_le (c m : Nat) (hc : 1 ≤ c) :
    ∀ x ∈ getTestCases c m, x ≤ c * 2 := by
  intro x hx
  unfold getTestCases at hx
  split_ifs at hx <;> simp at hx <;> omega

lemma getTestCases_getLast (c m : Nat) (hm : c * 2 ≤ m) :
    (getTestCases c m).getLast? = some (c * 2) := by
  unfold getTestCases
  rw [if_pos hm, List.getLast?_concat]

lemma getTestCases_nodup (c m : Nat) (hc : 4 ≤ c) :
    (getTestCases c m).Nodup := by
  unfold getTestCases
  split_ifs with h1 h2 h3 <;>
    first
      | (exfalso; omega)
      | (simp [List.nodup_cons, List.mem_cons, List.mem_append]; omega)

/-! ## Claim theorems about the sweep generator -/

/-- Claim C2, counterexample: with 2 cores and a configured maximum of 10
(which exceeds 2 x 2), the generated sweep is `[1, 1, 2, 3, 4]`: no evenly
spaced worker counts between 4 and 10 are appended, the last entry is 4, and
the configured maximum 10 does not occur at all. -/
theorem c2_interpolation_counterexample :
    2 * 2 < 10 ∧ getTestCases 2 10 = [1, 1, 2, 3, 4] ∧
      (getTestCases 2 10).getLast? = some 4 ∧ 10 ∉ getTestCases 2 10 := by
  decide

/-- Claim C2, amended: whenever the configured maximum is at least twice the
core count, the generator appends `cpuCount * 2` as the final entry of the
sweep; it never generates any worker count above `cpuCount * 2`, so the
configured maximum itself appears only when it equals one of the fixed
points. -/
theorem c2_amended_last_entry (c m : Nat) (hc : 1 ≤ c) (hm : c * 2 ≤ m) :
    (getTestCases c m).getLast? = some (c * 2) ∧
      ∀ x ∈ getTestCases c m, x ≤ c * 2 :=
  ⟨getTestCases_getLast c m hm, getTestCases_le c m hc⟩

/-- Witness for the amended claim C2 at `cpuCount = 2`, `maxRoutines = 10`. -/
theorem c2_amended_last_entry_witness :
    (getTestCases 2 10).getLast? = some (2 * 2) ∧
      ∀ x ∈ getTestCases 2 10, x ≤ 2 * 2 :=
  c2_amended_last_entry 2 10 (by decide) (by decide)

/-- Claim C3, counterexample: on a single-core host (with the default maximum
of 2 x 1), the generated sweep is `[1, 1, 2]` — the entry 1 is duplicated
(the seed entry and the unconditional `cpuCount` entry), and the duplicates
are not merged before running. -/
theorem c3_duplicates_counterexample :
    getTestCases 1 2 = [1, 1, 2] ∧ ¬ (getTestCases 1 2).Nodup := by
  decide

/-- Claim C3, amended: for `cpuCoreCount = 1` the generated sweep is
`[1, 1, 2]`, containing the entry 1 twice (duplicates are not merged and are
each run as a separate trial); only for core counts of at least 4 are the
generated worker counts pairwise distinct. -/
theorem c3_amended_duplicates (c m : Nat) (hc : 4 ≤ c) :
    getTestCases 1 2 = [1, 1, 2] ∧ (getTestCases c m).Nodup :=
  ⟨by decide, getTestCases_nodup c m hc⟩

/-- Witness for the amended claim C3 at `cpuCount = 4`, `maxRoutines = 8`. -/
theorem c3_amended_duplicates_witness :
    getTestCases 1 2 = [1, 1, 2] ∧ (getTestCases 4 8).Nodup :=
  c3_amended_duplicates 4 8 (by decide)

/-- Claim C9: for every core count >= 1 and every configured maximum, the
generated sweep is non-decreasing and every entry is at most twice the core
count, no matter how large the configured maximum is. -/
theorem c9_sweep_sorted_and_bounded (c m : Nat) (hc : 1 ≤ c) :
    List.Sorted (· ≤ ·) (getTestCases c m) ∧
      ∀ x ∈ getTestCases c m, x ≤ 2 * c := by
  refine ⟨getTestCases_sorted c m hc, fun x hx => ?_⟩
  have := getTestCases_le c m hc x hx
  omega

/-- Witness for claim C9 at `cpuCount = 1`, `maxRoutines = 1000000`. -/
theorem c9_sweep_sorted_and_bounded_witness :
    List.Sorted (· ≤ ·) (getTestCases 1 1000000) ∧
      ∀ x ∈ getTestCases 1 1000000, x ≤ 2 * 1 :=
  c9_sweep_sorted_and_bounded 1 1000000 (by decide)

/-! ## Lemmas about the reporter -/

lemma selectBestAux_spec (rs : List BenchmarkResult) :
    ∀ (b0 : BenchmarkResult) (p0 : ℚ),
      ((∀ r ∈ rs, r.OpsPerSecond ≤ p0) ∧ selectBestAux (b0, p0) rs = (b0, p0))
      ∨ (∃ l1 b l2, rs = l1 ++ b :: l2 ∧ p0 < b.OpsPerSecond
          ∧ (∀ r ∈ l1, r.OpsPerSecond < b.OpsPerSecond)
          ∧ (∀ r ∈ l2, r.OpsPerSecond ≤ b.OpsPerSecond)
          ∧ selectBestAux (b0, p0) rs = (b, b.OpsPerSecond)) := by
  induction rs with
  | nil =>
    intro b0 p0
    exact Or.inl ⟨by simp, rfl⟩
  | cons r rest ih =>
    intro b0 p0
    by_cases hp : p0 < r.OpsPerSecond
    · have step : selectBestAux (b0, p0) (r :: rest)
          = selectBestAux (r, r.OpsPerSecond) rest := by
        simp [selectBestAux, hp]
      rcases ih r r.OpsPerSecond with ⟨hall, he⟩ | ⟨l1, b, l2, heq, hlt, hpre, hsuf, he⟩
      · exact Or.inr ⟨[], r, rest, by simp, hp, by simp, hall, by rw [step, he]⟩
      · refine Or.inr ⟨r :: l1, b, l2, by rw [heq, List.cons_append],
          lt_trans hp hlt, ?_, hsuf, by rw [step, he]⟩
        intro x hx
        rcases List.mem_cons.mp hx with hx | hx
        · rw [hx]; exact hlt
        · exact hpre x hx
    · have step : selectBestAux (b0, p0) (r :: rest)
          = selectBestAux (b0, p0) rest := by
        simp [selectBestAux, hp]
      rcases ih b0 p0 with ⟨hall, he⟩ | ⟨l1, b, l2, heq, hlt, hpre, hsuf, he⟩
      · refine Or.inl ⟨?_, by rw [step, he]⟩
        intro x hx
        rcases List.mem_cons.mp hx with hx | hx
        · rw [hx]; exact le_of_not_lt hp
        · exact hall x hx
      · refine Or.inr ⟨r :: l1, b, l2, by rw [heq, List.cons_append],
          hlt, ?_, hsuf, by rw [step, he]⟩
        intro x hx
        rcases List.mem_cons.mp hx with hx | hx
        · rw [hx]; exact lt_of_le_of_lt (le_of_not_lt hp) hlt
        · exact hpre x hx

lemma selectSingleAux_of_none (rs : List BenchmarkResult) :
    ∀ a0, (∀ r ∈ rs, r.Goroutines ≠ 1) → selectSingleAux a0 rs = a0 := by
  induction rs with
  | nil => intro a0 _; rfl
  | cons r rest ih =>
    intro a0 h
    have hr : r.Goroutines ≠ 1 := h r (List.mem_cons_self r rest)
    have step : selectSingleAux a0 (r :: rest) = selectSingleAux a0 rest := by
      simp [selectSingleAux, hr]
    rw [step]
    exact ih a0 (fun x hx => h x (List.mem_cons_of_mem r hx))

lemma selectSingleAux_of_some (rs : List BenchmarkResult) :
    ∀ a0, (∃ r ∈ rs, r.Goroutines = 1) →
      selectSingleAux a0 rs ∈ rs ∧ (selectSingleAux a0 rs).Goroutines = 1 := by
  induction rs with
  | nil => intro a0 h; simp at h
  | cons r rest ih =>
    intro a0 hex
    by_cases hr : r.Goroutines = 1
    · have step : selectSingleAux a0 (r :: rest) = selectSingleAux r rest := by
        simp [selectSingleAux, hr]
      by_cases hrest : ∃ x ∈ rest, x.Goroutines = 1
      · have h := ih r hrest
        rw [step]
        exact ⟨List.mem_cons_of_mem r h.1, h.2⟩
      · push_neg at hrest
        rw [step, selectSingleAux_of_none rest r hrest]
        exact ⟨List.mem_cons_self r rest, hr⟩
    · have step : selectSingleAux a0 (r :: rest) = selectSingleAux a0 rest := by
        simp [selectSingleAux, hr]
      have hrest : ∃ x ∈ rest, x.Goroutines = 1 := by
        rcases hex with ⟨x, hx, h1⟩
        rcases List.mem_cons.mp hx with hx | hx
        · exact absurd (hx ▸ h1) hr
        · exact ⟨x, hx, h1⟩
      have h := ih a0 hrest
      rw [step]
      exact ⟨List.mem_cons_of_mem r h.1, h.2⟩

/-! ## Claim theorems about the reporter -/

/-- Claim C5, counterexample: on the non-empty ResultSet containing the single
trial `(workerCount 1, opsPerSecond 0.0)`, the trial with maximum
`opsPerSecond` is that trial, but the reporter selects the zero-value result
(goroutine count 0), which is not a trial of the set at all: the accumulation
starts from `bestPerformance = 0.0` and only a strict improvement replaces the
best. -/
theorem c5_counterexample :
    selectBest [{ Goroutines := 1, OpsPerSecond := 0, MemoryAllocs := 0, TotalOps := 0 }]
        = (zeroResult, 0)
      ∧ (selectBest [{ Goroutines := 1, OpsPerSecond := 0, MemoryAllocs := 0, TotalOps := 0 }]).1
          ∉ [({ Goroutines := 1, OpsPerSecond := 0, MemoryAllocs := 0, TotalOps := 0 } : BenchmarkResult)] := by
  decide

/-- Claim C5, amended: for every ResultSet containing at least one trial with
strictly positive `opsPerSecond`, the reporter selects as best the first trial
attaining the maximum `opsPerSecond` (ties broken by first occurrence in sweep
order), computes the CPU ratio as `bestWorkerCount / cpuCoreCount` and the
speedup as `bestOpsPerSecond / singleWorkerOpsPerSecond` where the
single-worker result is the trial with `workerCount == 1` (the last such trial
if several occur); in particular on `[(1, 100.0), (4, 450.0), (8, 300.0)]` it
selects worker count 4 with speedup 4.5. -/
theorem c5_amended_best_selection (rs : List BenchmarkResult) (c : Nat)
    (h : ∃ r ∈ rs, 0 < r.OpsPerSecond) :
    (∃ l1 l2, rs = l1 ++ (selectBest rs).1 :: l2
        ∧ (∀ r ∈ l1, r.OpsPerSecond < (selectBest rs).1.OpsPerSecond)
        ∧ (∀ r ∈ rs, r.OpsPerSecond ≤ (selectBest rs).1.OpsPerSecond))
      ∧ (printResultsModel rs c).workersPerCore
          = ((selectBest rs).1.Goroutines : ℚ) / (c : ℚ)
      ∧ ((∃ r ∈ rs, r.Goroutines = 1) →
          ∃ s ∈ rs, s.Goroutines = 1
            ∧ (printResultsModel rs c).speedup
                = some ((selectBest rs).1.OpsPerSecond / s.OpsPerSecond))
      ∧ (printResultsModel exampleResults c).bestGoroutines = 4
      ∧ (printResultsModel exampleResults c).speedup = some (9 / 2) := by
  refine ⟨?_, rfl, ?_, rfl, ?_⟩
  · rcases selectBestAux_spec rs zeroResult 0 with ⟨hall, _⟩ | ⟨l1, b, l2, heq, _, hpre, hsuf, he⟩
    · rcases h with ⟨r, hr, hrpos⟩
      exact absurd (hall r hr) (not_le.mpr hrpos)
    · have hb : (selectBest rs).1 = b := by rw [selectBest, he]
      refine ⟨l1, l2, by rw [hb, heq], by rw [hb]; exact hpre, ?_⟩
      intro r hr
      rw [hb]
      rw [heq] at hr
      rcases List.mem_append.mp hr with hr | hr
      · exact le_of_lt (hpre r hr)
      · rcases List.mem_cons.mp hr with hr | hr
        · rw [hr]
        · exact hsuf r hr
  · intro hex
    have hs := selectSingleAux_of_some rs zeroResult hex
    have hg : (selectSingle rs).Goroutines = 1 := hs.2
    refine ⟨selectSingle rs, hs.1, hg, ?_⟩
    show (if (selectSingle rs).Goroutines = 1 then
        some ((selectBest rs).1.OpsPerSecond / (selectSingle rs).OpsPerSecond)
      else none) = _
    rw [if_pos hg]
  · have e1 : (selectSingle exampleResults).Goroutines = 1 := by decide
    have e2 : (selectBest exampleResults).1.OpsPerSecond = 450 := by decide
    have e3 : (selectSingle exampleResults).OpsPerSecond = 100 := by decide
    show (if (selectSingle exampleResults).Goroutines = 1 then
        some ((selectBest exampleResults).1.OpsPerSecond / (selectSingle exampleResults).OpsPerSecond)
      else none) = some (9 / 2)
    rw [if_pos e1, e2, e3]
    norm_num

/-- Witness for the amended claim C5 on the spec's example ResultSet with 4
cores. -/
theorem c5_amended_best_selection_witness :
    (∃ l1 l2, exampleResults = l1 ++ (selectBest exampleResults).1 :: l2
        ∧ (∀ r ∈ l1, r.OpsPerSecond < (selectBest exampleResults).1.OpsPerSecond)
        ∧ (∀ r ∈ exampleResults, r.OpsPerSecond ≤ (selectBest exampleResults).1.OpsPerSecond))
      ∧ (printResultsModel exampleResults 4).workersPerCore
          = ((selectBest exampleResults).1.Goroutines : ℚ) / (4 : Nat)
      ∧ ((∃ r ∈ exampleResults, r.Goroutines = 1) →
          ∃ s ∈ exampleResults, s.Goroutines = 1
            ∧ (printResultsModel exampleResults 4).speedup
                = some ((selectBest exampleResults).1.OpsPerSecond / s.OpsPerSecond))
      ∧ (printResultsModel exampleResults 4).bestGoroutines = 4
      ∧ (printResultsModel exampleResults 4).speedup = some (9 / 2) :=
  c5_amended_best_selection exampleResults 4 (by decide)

/-- Claim C6: for every ResultSet containing no trial with worker count 1,
the speedup figure is omitted (`singleGoroutineResult` keeps the zero value,
whose goroutine count is 0, so the guard fails), while the best configuration
is still reported; in particular on `[(4, 450.0), (8, 300.0)]` the best
worker count 4 is reported and the speedup is `none`. -/
theorem c6_missing_baseline (rs : List BenchmarkResult) (c : Nat)
    (h : ∀ r ∈ rs, r.Goroutines ≠ 1) :
    (printResultsModel rs c).speedup = none
      ∧ (printResultsModel exampleNoBaseline c).bestGoroutines = 4
      ∧ (printResultsModel exampleNoBaseline c).speedup = none := by
  refine ⟨?_, rfl, rfl⟩
  have hz : selectSingle rs = zeroResult := selectSingleAux_of_none rs zeroResult h
  show (if (selectSingle rs).Goroutines = 1 then
      some ((selectBest rs).1.OpsPerSecond / (selectSingle rs).OpsPerSecond)
    else none) = none
  rw [hz]
  rfl

/-- Witness for claim C6 on the spec's missing-baseline ResultSet with 4
cores. -/
theorem c6_missing_baseline_witness :
    (printResultsModel exampleNoBaseline 4).speedup = none
      ∧ (printResultsModel exampleNoBaseline 4).bestGoroutines = 4
      ∧ (printResultsModel exampleNoBaseline 4).speedup = none :=
  c6_missing_baseline exampleNoBaseline 4 (by decide)

/-- Claim C10: if every trial of a non-empty ResultSet has `opsPerSecond = 0`,
no trial strictly exceeds the initial `bestPerformance = 0.0`, so the selected
best stays the Go zero value: goroutine count 0 and CPU ratio 0, not any
actual trial of the set. -/
theorem c10_all_zero_selects_zero_value (rs : List BenchmarkResult) (c : Nat)
    (hne : rs ≠ []) (hz : ∀ r ∈ rs, r.OpsPerSecond = 0) :
    selectBest rs = (zeroResult, 0)
      ∧ (printResultsModel rs c).bestGoroutines = 0
      ∧ (printResultsModel rs c).workersPerCore = 0 := by
  rcases selectBestAux_spec rs zeroResult 0 with ⟨_, he⟩ | ⟨l1, b, l2, heq, hlt, _, _, _⟩
  · have hb : selectBest rs = (zeroResult, 0) := he
    refine ⟨hb, ?_, ?_⟩
    · show (selectBest rs).1.Goroutines = 0
      rw [hb]
      rfl
    · show ((selectBest rs).1.Goroutines : ℚ) / (c : ℚ) = 0
      rw [hb]
      show ((0 : Nat) : ℚ) / (c : ℚ) = 0
      rw [Nat.cast_zero, zero_div]
  · exfalso
    have hbmem : b ∈ rs := by
      rw [heq]
      exact List.mem_append.mpr (Or.inr (List.mem_cons_self b l2))
    rw [hz b hbmem] at hlt
    exact lt_irrefl 0 hlt

/-- Witness for claim C10 on the one-element all-zero ResultSet with 4
cores. -/
theorem c10_all_zero_selects_zero_value_witness :
    selectBest [{ Goroutines := 1, OpsPerSecond := 0, MemoryAllocs := 0, TotalOps := 0 }]
        = (zeroResult, 0)
      ∧ (printResultsModel [{ Goroutines := 1, OpsPerSecond := 0, MemoryAllocs := 0, TotalOps := 0 }] 4).bestGoroutines = 0
      ∧ (printResultsModel [{ Goroutines := 1, OpsPerSecond := 0, MemoryAllocs := 0, TotalOps := 0 }] 4).workersPerCore = 0 :=
  c10_all_zero_selects_zero_value
    [{ Goroutines := 1, OpsPerSecond := 0, MemoryAllocs := 0, TotalOps := 0 }] 4
    (by decide) (by decide)

/-! ## Claim theorems about configuration handling -/

/-- Claim C4, counterexample: with the invalid duration 0 and the recognized
selector "cpu", no configuration error is surfaced and the CPU trials still
run; with a positive duration and the unrecognized selector "bogus", no
configuration error is surfaced either.  `main` performs no validation of its
flags (src/main.go:50-83). -/
theorem c4_no_validation_counterexample :
    (mainDispatch 0 "cpu").configErrorSurfaced = false
      ∧ (mainDispatch 0 "cpu").cpuTrialsRun = true
      ∧ (mainDispatch 10 "bogus").configErrorSurfaced = false := by
  decide

/-- Claim C4, amended: the program performs no configuration validation at
all.  Even for a non-positive duration no error is surfaced and trials still
run for whichever workloads the selector names; an unrecognized selector
merely causes neither benchmark branch to run, again without any surfaced
error. -/
theorem c4_amended_no_validation (d : Int) (t : String) (hd : d ≤ 0) :
    (mainDispatch d t).configErrorSurfaced = false
      ∧ (mainDispatch d t).cpuTrialsRun = (t == "cpu" || t == "both")
      ∧ (mainDispatch d t).memoryTrialsRun = (t == "memory" || t == "both") :=
  ⟨rfl, rfl, rfl⟩

/-- Witness for the amended claim C4 at duration 0 and the unrecognized
selector "bogus". -/
theorem c4_amended_no_validation_witness :
    (mainDispatch 0 "bogus").configErrorSurfaced = false
      ∧ (mainDispatch 0 "bogus").cpuTrialsRun = ("bogus" == "cpu" || "bogus" == "both")
      ∧ (mainDispatch 0 "bogus").memoryTrialsRun = ("bogus" == "memory" || "bogus" == "both") :=
  c4_amended_no_validation 0 "bogus" (by decide)

/-! ## Lemmas about the trial runner -/

lemma workStep_sum (wl : Workload) (l : Nat) (h : 1 ≤ wl.opsPerIter) :
    (workStep wl l).1 + (workStep wl l).2 = l + wl.opsPerIter := by
  rcases Nat.eq_zero_or_pos wl.threshold with hth | hth
  · have hne : (l + wl.opsPerIter) % wl.threshold ≠ 0 := by
      rw [hth, Nat.mod_zero]
      omega
    simp [workStep, hne]
  · by_cases h0 : (l + wl.opsPerIter) % wl.threshold = 0
    · have hdvd : wl.threshold ∣ l + wl.opsPerIter := Nat.dvd_of_mod_eq_zero h0
      have hle : wl.threshold ≤ l + wl.opsPerIter := Nat.le_of_dvd (by omega) hdvd
      simp [workStep, h0]
      omega
    · simp [workStep, h0]

lemma runFlushed_append (wl : Workload) (as1 as2 : List WAction) :
    ∀ l, runFlushed wl l (as1 ++ as2)
      = runFlushed wl l as1 + runFlushed wl (runLocal wl l as1) as2 := by
  induction as1 with
  | nil => intro l; simp [runFlushed, runLocal]
  | cons a rest ih =>
    intro l
    cases a with
    | work =>
      have e1 : runFlushed wl l ((WAction.work :: rest) ++ as2)
          = (workStep wl l).2 + runFlushed wl (workStep wl l).1 (rest ++ as2) := rfl
      have e2 : runFlushed wl l (WAction.work :: rest)
          = (workStep wl l).2 + runFlushed wl (workStep wl l).1 rest := rfl
      have e3 : runLocal wl l (WAction.work :: rest)
          = runLocal wl (workStep wl l).1 rest := rfl
      rw [e1, e2, e3, ih]
      omega
    | halt =>
      have e1 : runFlushed wl l ((WAction.halt :: rest) ++ as2)
          = l + runFlushed wl 0 (rest ++ as2) := rfl
      have e2 : runFlushed wl l (WAction.halt :: rest)
          = l + runFlushed wl 0 rest := rfl
      have e3 : runLocal wl l (WAction.halt :: rest) = runLocal wl 0 rest := rfl
      rw [e1, e2, e3, ih]
      omega

lemma runFlushed_replicate (wl : Workload) (h : 1 ≤ wl.opsPerIter) (k : Nat) :
    ∀ l, runFlushed wl l (List.replicate k WAction.work)
        + runLocal wl l (List.replicate k WAction.work) = l + k * wl.opsPerIter := by
  induction k with
  | zero => intro l; simp [runFlushed, runLocal]
  | succ k ih =>
    intro l
    rw [List.replicate_succ]
    simp only [runFlushed, runLocal]
    have hstep := workStep_sum wl l h
    have hrec := ih (workStep wl l).1
    rw [Nat.succ_mul]
    omega

lemma runFlushed_worker (wl : Workload) (h : 1 ≤ wl.opsPerIter) (k : Nat) :
    runFlushed wl 0 (List.replicate k WAction.work ++ [WAction.halt])
      = k * wl.opsPerIter := by
  rw [runFlushed_append]
  have h2 := runFlushed_replicate wl h k 0
  simp only [runFlushed] at *
  omega

lemma proj_cons (e : Event) (es : List Event) (i : Nat) :
    proj (e :: es) i = if e.1 = i then e.2 :: proj es i else proj es i := by
  by_cases h : e.1 = i
  · simp [proj, List.filter_cons, h]
  · simp [proj, List.filter_cons, h]

lemma counter_sum_step (wl : Workload) (s : TrialState) (e : Event)
    (rest : List Event) (n : Nat) (hj : e.1 < n) (d l2 : Nat)
    (hflush : runFlushed wl (s.locals e.1) (e.2 :: proj rest e.1)
      = d + runFlushed wl l2 (proj rest e.1)) :
    s.counter + d
        + (Finset.range n).sum
            (fun i => runFlushed wl (Function.update s.locals e.1 l2 i) (proj rest i))
      = s.counter
        + (Finset.range n).sum
            (fun i => runFlushed wl (s.locals i) (proj (e :: rest) i)) := by
  have hmem : e.1 ∈ Finset.range n := Finset.mem_range.mpr hj
  have hF : (Finset.range n).sum
        (fun i => runFlushed wl (Function.update s.locals e.1 l2 i) (proj rest i))
      = runFlushed wl (Function.update s.locals e.1 l2 e.1) (proj rest e.1)
        + ((Finset.range n).erase e.1).sum
            (fun i => runFlushed wl (Function.update s.locals e.1 l2 i) (proj rest i)) :=
    (Finset.add_sum_erase _ _ hmem).symm
  have hG : (Finset.range n).sum
        (fun i => runFlushed wl (s.locals i) (proj (e :: rest) i))
      = runFlushed wl (s.locals e.1) (proj (e :: rest) e.1)
        + ((Finset.range n).erase e.1).sum
            (fun i => runFlushed wl (s.locals i) (proj (e :: rest) i)) :=
    (Finset.add_sum_erase _ _ hmem).symm
  have hFval : runFlushed wl (Function.update s.locals e.1 l2 e.1) (proj rest e.1)
      = runFlushed wl l2 (proj rest e.1) := by
    rw [Function.update_same]
  have hGval : runFlushed wl (s.locals e.1) (proj (e :: rest) e.1)
      = d + runFlushed wl l2 (proj rest e.1) := by
    rw [proj_cons, if_pos rfl]
    exact hflush
  have hcong : ((Finset.range n).erase e.1).sum
        (fun i => runFlushed wl (Function.update s.locals e.1 l2 i) (proj rest i))
      = ((Finset.range n).erase e.1).sum
          (fun i => runFlushed wl (s.locals i) (proj (e :: rest) i)) := by
    refine Finset.sum_congr rfl ?_
    intro i hi
    have hne : i ≠ e.1 := (Finset.mem_erase.mp hi).1
    rw [proj_cons, if_neg (fun hh => hne hh.symm), Function.update_apply, if_neg hne]
  rw [hF, hG, hFval, hGval, hcong]
  omega

lemma runFrom_counter (wl : Workload) (es : List Event) (n : Nat) :
    ∀ s : TrialState, (∀ e ∈ es, e.1 < n) →
      (runFrom wl s es).counter
        = s.counter
          + (Finset.range n).sum (fun i => runFlushed wl (s.locals i) (proj es i)) := by
  induction es with
  | nil =>
    intro s _
    simp [runFrom, proj, runFlushed]
  | cons e rest ih =>
    intro s hall
    have hj : e.1 < n := hall e (List.mem_cons_self e rest)
    have hrec := ih (applyEvent wl s e) (fun x hx => hall x (List.mem_cons_of_mem e hx))
    have hstep : runFrom wl s (e :: rest) = runFrom wl (applyEvent wl s e) rest := rfl
    rw [hstep, hrec]
    cases he : e.2 with
    | work =>
      have hc : (applyEvent wl s e).counter
          = s.counter + (workStep wl (s.locals e.1)).2 := by
        simp [applyEvent, he]
      have hl : (applyEvent wl s e).locals
          = Function.update s.locals e.1 (workStep wl (s.locals e.1)).1 := by
        simp [applyEvent, he]
      have hflush : runFlushed wl (s.locals e.1) (e.2 :: proj rest e.1)
          = (workStep wl (s.locals e.1)).2
            + runFlushed wl (workStep wl (s.locals e.1)).1 (proj rest e.1) := by
        rw [he]
        simp [runFlushed]
      rw [hc, hl]
      exact counter_sum_step wl s e rest n hj _ _ hflush
    | halt =>
      have hc : (applyEvent wl s e).counter = s.counter + s.locals e.1 := by
        simp [applyEvent, he]
      have hl : (applyEvent wl s e).locals = Function.update s.locals e.1 0 := by
        simp [applyEvent, he]
      have hflush : runFlushed wl (s.locals e.1) (e.2 :: proj rest e.1)
          = s.locals e.1 + runFlushed wl 0 (proj rest e.1) := by
        rw [he]
        simp [runFlushed]
      rw [hc, hl]
      exact counter_sum_step wl s e rest n hj _ _ hflush

lemma applyEvent_counter_le (wl : Workload) (s : TrialState) (e : Event) :
    s.counter ≤ (applyEvent wl s e).counter := by
  cases he : e.2 with
  | work =>
    have hc : (applyEvent wl s e).counter
        = s.counter + (workStep wl (s.locals e.1)).2 := by
      simp [applyEvent, he]
    omega
  | halt =>
    have hc : (applyEvent wl s e).counter = s.counter + s.locals e.1 := by
      simp [applyEvent, he]
    omega

lemma runFrom_counter_le (wl : Workload) (es : List Event) :
    ∀ s : TrialState, s.counter ≤ (runFrom wl s es).counter := by
  induction es with
  | nil => intro s; exact le_refl _
  | cons e rest ih =>
    intro s
    exact le_trans (applyEvent_counter_le wl s e) (ih (applyEvent wl s e))

/-! ## Claim theorems about the trial runner -/

/-- Claim C1: for every trial with at least one worker, for any interleaving
of worker events in which each worker `i < n` performs its `ks i` loop
iterations and then flushes exactly once on observing the stop signal, the
shared counter read after all workers have terminated equals the exact total
number of completed kernel calls across all workers — for the CPU workload
(batch threshold 10,000) the sum of the `ks i`, and for the memory workload
(batch threshold 1,000) one operation per buffer size and iteration.  Nothing
is lost or double-counted: full batches are flushed during the run and the
residual sub-batch exactly once at stop. -/
theorem c1_exact_accounting (n : Nat) (hn : 1 ≤ n) (es : List Event) (ks : Nat → Nat)
    (hidx : ∀ e ∈ es, e.1 < n)
    (hproj : ∀ i, i < n →
      proj es i = List.replicate (ks i) WAction.work ++ [WAction.halt]) :
    (runTrial cpuWorkload es).counter = (Finset.range n).sum ks
      ∧ (runTrial memWorkload es).counter
          = (Finset.range n).sum (fun i => sizes.length * ks i) := by
  have key : ∀ wl : Workload, 1 ≤ wl.opsPerIter →
      (runTrial wl es).counter
        = (Finset.range n).sum (fun i => ks i * wl.opsPerIter) := by
    intro wl hwl
    have hrc : (runTrial wl es).counter
        = initTrial.counter
          + (Finset.range n).sum
              (fun i => runFlushed wl (initTrial.locals i) (proj es i)) :=
      runFrom_counter wl es n initTrial hidx
    rw [hrc]
    have hcong : ∀ i ∈ Finset.range n,
        runFlushed wl (initTrial.locals i) (proj es i) = ks i * wl.opsPerIter := by
      intro i hi
      rw [hproj i (Finset.mem_range.mp hi)]
      exact runFlushed_worker wl hwl (ks i)
    rw [Finset.sum_congr rfl hcong]
    simp [initTrial]
  constructor
  · have h1 := key cpuWorkload (by decide)
    rw [h1]
    refine Finset.sum_congr rfl ?_
    intro i _
    simp [cpuWorkload]
  · have h2 := key memWorkload (by decide)
    rw [h2]
    refine Finset.sum_congr rfl ?_
    intro i _
    simp [memWorkload, Nat.mul_comm]

/-- Witness for claim C1: one worker performing one loop iteration and then
observing stop; both workloads count exactly the completed operations. -/
theorem c1_exact_accounting_witness :
    (runTrial cpuWorkload [(0, WAction.work), (0, WAction.halt)]).counter
        = (Finset.range 1).sum (fun _ => 1)
      ∧ (runTrial memWorkload [(0, WAction.work), (0, WAction.halt)]).counter
          = (Finset.range 1).sum (fun i => sizes.length * (fun _ => 1) i) :=
  c1_exact_accounting 1 (by decide) [(0, WAction.work), (0, WAction.halt)]
    (fun _ => 1) (by decide)
    (by
      intro i hi
      have h0 : i = 0 := by omega
      rw [h0]
      rfl)

/-- Claim C7: for every completed trial with at least one worker and positive
duration, the returned result has a non-negative operation total, its
`OpsPerSecond` equals `TotalOps / durationSeconds` exactly (in the rational
model of `float64`), the total is exactly the final counter read after the
whole schedule has run (never a partial-duration estimate), and the memory
result exposes the total also as `MemoryAllocs`. -/
theorem c7_rate_from_final_total (g : Nat) (es : List Event) (d : ℚ)
    (hg : 1 ≤ g) (hd : 0 < d) :
    0 ≤ (benchmarkCPUResult g es d).TotalOps
      ∧ (benchmarkCPUResult g es d).OpsPerSecond
          = ((benchmarkCPUResult g es d).TotalOps : ℚ) / d
      ∧ (benchmarkCPUResult g es d).TotalOps = (runTrial cpuWorkload es).counter
      ∧ (benchmarkMemoryResult g es d).OpsPerSecond
          = ((benchmarkMemoryResult g es d).TotalOps : ℚ) / d
      ∧ (benchmarkMemoryResult g es d).TotalOps = (runTrial memWorkload es).counter
      ∧ (benchmarkMemoryResult g es d).MemoryAllocs
          = (benchmarkMemoryResult g es d).TotalOps :=
  ⟨Nat.zero_le _, rfl, rfl, rfl, rfl, rfl⟩

/-- Witness for claim C7: one worker, a two-event schedule, duration one
second. -/
theorem c7_rate_from_final_total_witness :
    0 ≤ (benchmarkCPUResult 1 [(0, WAction.work), (0, WAction.halt)] 1).TotalOps
      ∧ (benchmarkCPUResult 1 [(0, WAction.work), (0, WAction.halt)] 1).OpsPerSecond
          = ((benchmarkCPUResult 1 [(0, WAction.work), (0, WAction.halt)] 1).TotalOps : ℚ) / 1
      ∧ (benchmarkCPUResult 1 [(0, WAction.work), (0, WAction.halt)] 1).TotalOps
          = (runTrial cpuWorkload [(0, WAction.work), (0, WAction.halt)]).counter
      ∧ (benchmarkMemoryResult 1 [(0, WAction.work), (0, WAction.halt)] 1).OpsPerSecond
          = ((benchmarkMemoryResult 1 [(0, WAction.work), (0, WAction.halt)] 1).TotalOps : ℚ) / 1
      ∧ (benchmarkMemoryResult 1 [(0, WAction.work), (0, WAction.halt)] 1).TotalOps
          = (runTrial memWorkload [(0, WAction.work), (0, WAction.halt)]).counter
      ∧ (benchmarkMemoryResult 1 [(0, WAction.work), (0, WAction.halt)] 1).MemoryAllocs
          = (benchmarkMemoryResult 1 [(0, WAction.work), (0, WAction.halt)] 1).TotalOps :=
  c7_rate_from_final_total 1 [(0, WAction.work), (0, WAction.halt)] 1
    (by decide) (by norm_num)

/-- Claim C8: within a single trial the shared counter never decreases: it is
only modified by additions of non-negative batch or residual amounts, so for
any two sample points `t1 <= t2` of any interleaving, the counter at `t1` is
at most the counter at `t2`, for both the CPU and the memory workload. -/
theorem c8_counter_monotone (es : List Event) (t1 t2 : Nat) (h : t1 ≤ t2) :
    counterAt cpuWorkload es t1 ≤ counterAt cpuWorkload es t2
      ∧ counterAt memWorkload es t1 ≤ counterAt memWorkload es t2 := by
  have key : ∀ wl : Workload, counterAt wl es t1 ≤ counterAt wl es t2 := by
    intro wl
    have ht : t2 = t1 + (t2 - t1) := by omega
    have hsplit : es.take t2 = es.take t1 ++ ((es.drop t1).take (t2 - t1)) := by
      nth_rewrite 1 [ht]
      rw [List.take_add]
    have h2 : counterAt wl es t2
        = (runFrom wl (runTrial wl (es.take t1)) ((es.drop t1).take (t2 - t1))).counter := by
      show (runFrom wl initTrial (es.take t2)).counter = _
      rw [hsplit]
      show (List.foldl (applyEvent wl) initTrial
          (es.take t1 ++ (es.drop t1).take (t2 - t1))).counter = _
      rw [List.foldl_append]
      rfl
    rw [h2]
    exact runFrom_counter_le wl ((es.drop t1).take (t2 - t1)) (runTrial wl (es.take t1))
  exact ⟨key cpuWorkload, key memWorkload⟩

/-- Witness for claim C8: a one-worker schedule sampled at times 0 and 2. -/
theorem c8_counter_monotone_witness :
    counterAt cpuWorkload [(0, WAction.work), (0, WAction.halt)] 0
        ≤ counterAt cpuWorkload [(0, WAction.work), (0, WAction.halt)] 2
      ∧ counterAt memWorkload [(0, WAction.work), (0, WAction.halt)] 0
          ≤ counterAt memWorkload [(0, WAction.work), (0, WAction.halt)] 2 :=
  c8_counter_monotone [(0, WAction.work), (0, WAction.halt)] 0 2 (by decide)
